import Mathlib

/-!
Verification of the curve resampling core of `app.py`
(`get_interpolated_data`).  Real numbers are modelled as exact rationals;
Python strings are lists of characters (the ASCII fragment relevant to the
inputs considered).  The parsing stage, the grid construction, the
`np.interp` linear interpolation and the endpoint-retention helper are
translated statement by statement from the source.
-/

attribute [local semireducible] Rat.add Rat.mul Rat.inv Rat.sub

namespace CurveApp

/-- ASCII fragment of Python's per-character whitespace test. -/
def pyIsSpace (c : Char) : Bool :=
  c = ' ' || c = '\t' || c = '\n' || c = '\r' || c = '\x0b' || c = '\x0c'

/-- ASCII fragment of Python's per-character digit test. -/
def pyIsDigit (c : Char) : Bool :=
  '0' ≤ c && c ≤ '9'

/-- Python `str.strip`: drop leading and trailing whitespace. -/
def pyStrip (l : List Char) : List Char :=
  ((l.dropWhile pyIsSpace).reverse.dropWhile pyIsSpace).reverse

/-- Python `str.splitlines` restricted to newline separators (the only line
separator in the inputs considered); the empty string yields no lines. -/
def pySplitlines (l : List Char) : List (List Char) :=
  if l = [] then []
  else
    let r := l.foldr
      (fun c acc =>
        if c = '\n' then (acc.2 :: acc.1, ([] : List Char)) else (acc.1, c :: acc.2))
      (([] : List (List Char)), ([] : List Char))
    r.2 :: r.1

/-- The character filter of app.py line 25: keep digits, dots, commas and
whitespace, silently delete everything else. -/
def cleanChars (l : List Char) : List Char :=
  l.filter (fun c => pyIsDigit c || c = '.' || c = ',' || pyIsSpace c)

/-- Python `str.split()` with no argument: split on runs of whitespace,
producing no empty tokens. -/
def splitWs (l : List Char) : List (List Char) :=
  let r := l.foldr
    (fun c acc =>
      if pyIsSpace c then
        (if acc.2 = ([] : List Char) then acc.1 else acc.2 :: acc.1, ([] : List Char))
      else (acc.1, c :: acc.2))
    (([] : List (List Char)), ([] : List Char))
  if r.2 = ([] : List Char) then r.1 else r.2 :: r.1

/-- Tokenisation of app.py line 28: `cleaned_line.replace(",", " ").split()`. -/
def lineTokens (l : List Char) : List (List Char) :=
  splitWs (l.map (fun c => if c = ',' then ' ' else c))

/-- Value of a digit string read in base 10. -/
def digitsVal (l : List Char) : ℚ :=
  l.foldl (fun acc c => acc * 10 + ((c.toNat - 48 : ℕ) : ℚ)) 0

/-- Python `float` on the token strings reachable here (digits and dots
only): it succeeds exactly when the token has at most one dot and at least
one digit. -/
def pyFloat (t : List Char) : Option ℚ :=
  if t.count '.' ≤ 1 ∧ t.any pyIsDigit then
    let ip := t.takeWhile (fun c => c ≠ '.')
    let fp := (t.dropWhile (fun c => c ≠ '.')).drop 1
    some (digitsVal ip + digitsVal fp / 10 ^ fp.length)
  else none

/-- Per-line outcome of the parsing loop body (app.py lines 21-38). -/
inductive LineResult where
  | blank
  | badTokens
  | badFloat
  | point (p : ℚ × ℚ)
deriving DecidableEq

/-- One iteration of the parsing loop of app.py lines 20-38: strip, skip a
blank line, filter characters, tokenise, require exactly two tokens, convert
both to numbers. -/
def lineRes (l : List Char) : LineResult :=
  let s := pyStrip l
  if s = ([] : List Char) then .blank
  else
    let toks := lineTokens (cleanChars s)
    if toks.length = 2 then
      match pyFloat (toks.getD 0 []), pyFloat (toks.getD 1 []) with
      | some x, some y => .point (x, y)
      | _, _ => .badFloat
    else .badTokens

/-- Error message of app.py line 30; the argument is the 1-based index. -/
def tokMsg (n : ℕ) : String :=
  "⚠️ Input Error: Line " ++ toString n ++ " must contain exactly two numbers."

/-- Error message of app.py lines 35-37. -/
def floatMsg (n : ℕ) : String :=
  "⚠️ Input Error: Could not convert values on line " ++ toString n ++
    ". Please check your format."

/-- Error message of app.py line 41. -/
def insufficientMsg : String :=
  "⚠️ Input Error: At least two data points are needed for interpolation."

/-- The parsing loop of app.py lines 20-38; the counter is the 0-based index
of the current line and accumulated points keep input order. -/
def parseLoop : ℕ → List (List Char) → List (ℚ × ℚ) → Except String (List (ℚ × ℚ))
  | _, [], acc => .ok acc
  | i, l :: ls, acc =>
    match lineRes l with
    | .blank => parseLoop (i + 1) ls acc
    | .badTokens => .error (tokMsg (i + 1))
    | .badFloat => .error (floatMsg (i + 1))
    | .point p => parseLoop (i + 1) ls (acc ++ [p])

/-- Lines 18-38 of app.py: `data_str.strip().splitlines()` parsed into the
list of points, or the first error message. -/
def parseData (s : String) : Except String (List (ℚ × ℚ)) :=
  parseLoop 0 (pySplitlines (pyStrip s.data)) []

deriving instance DecidableEq for Except

/-- Comparison by the y component, the sort key of app.py line 49. -/
def leY (a b : ℚ × ℚ) : Prop := a.2 ≤ b.2

instance : DecidableRel leY := fun a b => inferInstanceAs (Decidable (a.2 ≤ b.2))

instance : IsTotal (ℚ × ℚ) leY := ⟨fun a b => le_total a.2 b.2⟩

instance : IsTrans (ℚ × ℚ) leY := ⟨fun _ _ _ h1 h2 => le_trans h1 h2⟩

/-- Stable sort by y, `sorted(data, key=lambda item: item[1])` of app.py. -/
def sortedPoints (data : List (ℚ × ℚ)) : List (ℚ × ℚ) :=
  List.insertionSort leY data

/-- The `original_x` array of app.py line 50. -/
def sortedXs (data : List (ℚ × ℚ)) : List ℚ :=
  (sortedPoints data).map (fun p => p.1)

/-- The `original_y` array of app.py line 51. -/
def sortedYs (data : List (ℚ × ℚ)) : List ℚ :=
  (sortedPoints data).map (fun p => p.2)

/-- The `min_y` of app.py line 54. -/
def dataMinY (data : List (ℚ × ℚ)) : ℚ := (sortedYs data).headD 0

/-- The `max_y` of app.py line 54. -/
def dataMaxY (data : List (ℚ × ℚ)) : ℚ := (sortedYs data).getLastD 0

/-- Grid point count `int(np.floor((max_y - min_y) / step_size + 1e-12)) + 1`
of app.py line 57. -/
def nStepsZ (minY maxY step : ℚ) : ℤ :=
  Int.floor ((maxY - minY) / step + 1 / 10 ^ 12) + 1

/-- The base grid `min_y + step_size * np.arange(n_steps)` of app.py line 58. -/
def baseY (minY step : ℚ) (n : ℕ) : List ℚ :=
  (List.range n).map (fun i : ℕ => minY + step * (i : ℚ))

/-- Absolute tolerance `max(1e-12, step_size * 1e-9)` of app.py line 61. -/
def gridTol (step : ℚ) : ℚ := max (1 / 10 ^ 12) (step * (1 / 10 ^ 9))

/-- App.py lines 56-64: the base grid, with `max_y` appended when the last
base grid point is not within `gridTol` of it. -/
def newYValues (minY maxY step : ℚ) : List ℚ :=
  if |(baseY minY step (nStepsZ minY maxY step).toNat).getLastD 0 - maxY| ≤ gridTol step
  then baseY minY step (nStepsZ minY maxY step).toNat
  else baseY minY step (nStepsZ minY maxY step).toNat ++ [maxY]

/-- Linear interpolation of `np.interp` for one query point against knots
`xp → fp` with `xp` non-decreasing: values outside the knot range clamp to
the boundary, a query equal to the last knot returns the last value, and an
interior query interpolates on the segment found by binary search (the last
`j` with `xp[j] ≤ x < xp[j+1]`). -/
def npInterp (x : ℚ) (xp fp : List ℚ) : ℚ :=
  if x > xp.getLastD 0 then fp.getLastD 0
  else if x < xp.headD 0 then fp.headD 0
  else if x = xp.getLastD 0 then fp.getLastD 0
  else
    let j := (xp.takeWhile (fun v => v ≤ x)).length - 1
    let xj := xp.getD j 0
    let xj1 := xp.getD (j + 1) 0
    let fj := fp.getD j 0
    let fj1 := fp.getD (j + 1) 0
    fj + (fj1 - fj) / (xj1 - xj) * (x - xj)

/-- The helper `append_point` of app.py lines 70-74: append the point when no
present y value is within `tol` of its y value. -/
def append_point (xarr yarr : List ℚ) (xval yval tol : ℚ) : List ℚ × List ℚ :=
  if yarr.any (fun y => decide (|y - yval| ≤ tol)) then (xarr, yarr)
  else (xarr ++ [xval], yarr ++ [yval])

/-- Endpoint-retention tolerance `max(1e-12, step_size * 1e-6)` of app.py
line 76. -/
def endpointTol (step : ℚ) : ℚ := max (1 / 10 ^ 12) (step * (1 / 10 ^ 6))

/-- The `new_y_values` grid for a parsed data set (app.py lines 53-64). -/
def gridY (data : List (ℚ × ℚ)) (step : ℚ) : List ℚ :=
  newYValues (dataMinY data) (dataMaxY data) step

/-- The `new_x_values` array `np.interp(new_y_values, original_y, original_x)`
of app.py line 67. -/
def gridX (data : List (ℚ × ℚ)) (step : ℚ) : List ℚ :=
  (gridY data step).map (fun y => npInterp y (sortedYs data) (sortedXs data))

/-- App.py line 79: retain the first point of the original input order. -/
def withFirstPoint (data : List (ℚ × ℚ)) (step : ℚ) : List ℚ × List ℚ :=
  let fr := data.headD (0, 0)
  append_point (gridX data step) (gridY data step) fr.1 fr.2 (endpointTol step)

/-- App.py line 80: retain the last point of the original input order. -/
def withLastPoint (data : List (ℚ × ℚ)) (step : ℚ) : List ℚ × List ℚ :=
  let lr := data.getLastD (0, 0)
  append_point (withFirstPoint data step).1 (withFirstPoint data step).2
    lr.1 lr.2 (endpointTol step)

/-- App.py lines 82-85: sort the combined set by y (`np.argsort` order applied
to both arrays; all y values are pairwise distinct here, so any sort order
agrees with this stable one). -/
def newCurve (data : List (ℚ × ℚ)) (step : ℚ) : List ℚ × List ℚ :=
  let pairs := List.insertionSort leY ((withLastPoint data step).1.zip (withLastPoint data step).2)
  (pairs.map (fun p => p.1), pairs.map (fun p => p.2))

/-- The first returned pair of app.py line 87, the input sorted by y. -/
def origCurve (data : List (ℚ × ℚ)) : List ℚ × List ℚ :=
  (sortedXs data, sortedYs data)

/-- Observable outcome of one call: a normal Python return value together
with the error messages displayed through the UI on the way, or an uncaught
exception. -/
inductive Outcome where
  | ret (emitted : List String) (original newData : Option (List ℚ × List ℚ))
      (error : Option String)
  | crash
deriving DecidableEq

/-- Full translation of `get_interpolated_data` (app.py lines 9-87).  Every
`st.error` call is followed by `return None, None, None`, so a failure
returns with all three components `None` and the message as a UI side
effect.  A zero step crashes at `int(np.floor(...))` (division by zero gives
a non-finite float that `int` rejects); a non-positive grid count (negative
step with `max_y > min_y`) crashes at `base_y[-1]` on the empty `np.arange`. -/
def get_interpolated_data (s : String) (step : ℚ) : Outcome :=
  match parseData s with
  | .error m => .ret [m] none none none
  | .ok data =>
    if data.length < 2 then .ret [insufficientMsg] none none none
    else if step = 0 then .crash
    else if nStepsZ (dataMinY data) (dataMaxY data) step ≤ 0 then .crash
    else .ret [] (some (origCurve data)) (some (newCurve data step)) none

/-! ### Helper lemmas -/

/-- The last element (with default) of a nonempty list is a member. -/
lemma getLastD_mem : ∀ {l : List ℚ}, l ≠ [] → l.getLastD 0 ∈ l
  | [], h => absurd rfl h
  | [a], _ => by simp
  | a :: b :: t, _ => by
    have ih : (b :: t).getLastD 0 ∈ b :: t := getLastD_mem (by simp)
    simp only [List.getLastD_cons] at ih ⊢
    exact List.mem_cons_of_mem a ih

/-- Every member of a list sorted by `≤` is at most the last element. -/
lemma sorted_le_getLastD : ∀ {l : List ℚ}, l.Sorted (· ≤ ·) →
    ∀ {y : ℚ}, y ∈ l → y ≤ l.getLastD 0
  | [], _, _, hy => absurd hy (List.not_mem_nil _)
  | [a], _, _, hy => by
    simp at hy
    simp [hy]
  | a :: b :: t, hs, y, hy => by
    have htail : (b :: t).Sorted (· ≤ ·) := hs.of_cons
    have hlast : (b :: t).getLastD 0 ∈ b :: t := getLastD_mem (by simp)
    rcases List.mem_cons.1 hy with rfl | hy
    · have := List.rel_of_sorted_cons hs _ hlast
      simpa using this
    · have := sorted_le_getLastD htail hy
      simpa using this

/-- Every member of a list sorted by `≤` is at least the head. -/
lemma sorted_headD_le {l : List ℚ} (hs : l.Sorted (· ≤ ·)) {y : ℚ} (hy : y ∈ l) :
    l.headD 0 ≤ y := by
  cases l with
  | nil => exact absurd hy (List.not_mem_nil _)
  | cons a t =>
    rcases List.mem_cons.1 hy with rfl | hy
    · simp
    · simpa using List.rel_of_sorted_cons hs _ hy

/-- The sorted point list is a permutation of the parsed data. -/
lemma sortedPoints_perm (data : List (ℚ × ℚ)) : List.Perm (sortedPoints data) data :=
  List.perm_insertionSort leY data

/-- The y list of the sorted points is sorted by `≤`. -/
lemma sortedYs_sorted (data : List (ℚ × ℚ)) : (sortedYs data).Sorted (· ≤ ·) := by
  unfold sortedYs
  rw [List.Sorted, List.pairwise_map]
  exact (List.sorted_insertionSort leY data).imp (fun h => h)

lemma sortedYs_length (data : List (ℚ × ℚ)) : (sortedYs data).length = data.length := by
  unfold sortedYs
  rw [List.length_map]
  exact (sortedPoints_perm data).length_eq

lemma sortedYs_ne_nil {data : List (ℚ × ℚ)} (h2 : 2 ≤ data.length) : sortedYs data ≠ [] := by
  intro h
  have := sortedYs_length data
  rw [h] at this
  simp at this
  omega

/-- Every parsed y value lies between `min_y` and `max_y`. -/
lemma dataMinY_le {data : List (ℚ × ℚ)} {p : ℚ × ℚ} (hp : p ∈ data) :
    dataMinY data ≤ p.2 := by
  have hmem : p.2 ∈ sortedYs data :=
    List.mem_map_of_mem _ ((sortedPoints_perm data).mem_iff.2 hp)
  exact sorted_headD_le (sortedYs_sorted data) hmem

lemma le_dataMaxY {data : List (ℚ × ℚ)} {p : ℚ × ℚ} (hp : p ∈ data) :
    p.2 ≤ dataMaxY data := by
  have hmem : p.2 ∈ sortedYs data :=
    List.mem_map_of_mem _ ((sortedPoints_perm data).mem_iff.2 hp)
  exact sorted_le_getLastD (sortedYs_sorted data) hmem

lemma dataMinY_le_dataMaxY {data : List (ℚ × ℚ)} (h2 : 2 ≤ data.length) :
    dataMinY data ≤ dataMaxY data := by
  have hne := sortedYs_ne_nil h2
  have hmem : (sortedYs data).headD 0 ∈ sortedYs data := by
    cases h : sortedYs data with
    | nil => exact absurd h hne
    | cons a t => simp
  exact sorted_le_getLastD (sortedYs_sorted data) hmem

/-- With a positive step and an ordered range, the grid count is positive. -/
lemma nStepsZ_pos {minY maxY step : ℚ} (hle : minY ≤ maxY) (hstep : 0 < step) :
    0 < nStepsZ minY maxY step := by
  unfold nStepsZ
  have hnum : (0 : ℚ) ≤ (maxY - minY) / step :=
    div_nonneg (sub_nonneg.2 hle) hstep.le
  have hpos : (0 : ℚ) ≤ (maxY - minY) / step + 1 / 10 ^ 12 := by positivity
  have := Int.floor_nonneg.2 hpos
  omega

/-- On any input that parses into at least two points, a positive step makes
the call return the two curves successfully. -/
lemma run_success {s : String} {step : ℚ} {data : List (ℚ × ℚ)}
    (hp : parseData s = .ok data) (h2 : 2 ≤ data.length) (hstep : 0 < step) :
    get_interpolated_data s step =
      .ret [] (some (origCurve data)) (some (newCurve data step)) none := by
  unfold get_interpolated_data
  rw [hp]
  have h1 : ¬ data.length < 2 := not_lt.2 h2
  have h3 : ¬ nStepsZ (dataMinY data) (dataMaxY data) step ≤ 0 :=
    not_le.2 (nStepsZ_pos (dataMinY_le_dataMaxY h2) hstep)
  simp [h1, hstep.ne', h3]

/-! ### Claim C1 -/

/-- C1 counterexample: with a negative step and an otherwise valid input
whose y values are all equal, `get_interpolated_data` returns a success, so
an input with non-positive step does not fail with an `InvalidStep` error
(no such error exists in the code). -/
theorem c1_counterexample :
    get_interpolated_data "1,5\n2,5" (-1) =
      .ret [] (some ([1, 2], [5, 5])) (some ([2], [5])) none := by decide

/-- C1 (amended): the core performs no step validation and has no
`InvalidStep` error.  A zero step crashes with an uncaught exception
whenever the raw text parses into two or more valid points, and a negative
step is not rejected either (it can even return successfully, see the
counterexample). -/
theorem c1_zero_step_crashes (s : String) (data : List (ℚ × ℚ))
    (hp : parseData s = .ok data) (h2 : 2 ≤ data.length) :
    get_interpolated_data s 0 = .crash := by
  unfold get_interpolated_data
  rw [hp]
  simp [not_lt.2 h2]

/-- C1 witness: the amended theorem applied to a concrete valid input. -/
theorem c1_zero_step_crashes_witness :
    parseData "1,2\n3,4" = .ok [(1, 2), (3, 4)] ∧
      get_interpolated_data "1,2\n3,4" 0 = .crash :=
  ⟨by decide, c1_zero_step_crashes "1,2\n3,4" [(1, 2), (3, 4)] (by decide) (by decide)⟩

/-! ### Claim C2 -/

/-- C2 counterexample: the input whose sorted y sequence needs reordering
(`"0,1\n1,0\n2,2"`) is not rejected with a `NonMonotonicY` error; with step
1/2 it succeeds and returns the interpolated curves. -/
theorem c2_counterexample :
    get_interpolated_data "0,1\n1,0\n2,2" (1/2) =
      .ret [] (some ([1, 0, 2], [0, 1, 2]))
        (some ([1, 1/2, 0, 1, 2], [0, 1/2, 1, 3/2, 2])) none := by decide

/-- C2 (amended): the code implements the permissive variant: no
monotonicity check exists.  Every input that parses into at least two
points succeeds for every positive step, however the y values interleave;
the points are sorted by y before interpolating. -/
theorem c2_no_monotonicity_check (s : String) (step : ℚ) (data : List (ℚ × ℚ))
    (hp : parseData s = .ok data) (h2 : 2 ≤ data.length) (hstep : 0 < step) :
    get_interpolated_data s step =
      .ret [] (some (origCurve data)) (some (newCurve data step)) none :=
  run_success hp h2 hstep

/-- C2 witness: the amended theorem applied to the non-monotonic input. -/
theorem c2_no_monotonicity_check_witness :
    parseData "0,1\n1,0\n2,2" = .ok [(0, 1), (1, 0), (2, 2)] ∧
      get_interpolated_data "0,1\n1,0\n2,2" (1/2) =
        .ret [] (some (origCurve [(0, 1), (1, 0), (2, 2)]))
          (some (newCurve [(0, 1), (1, 0), (2, 2)] (1/2))) none :=
  ⟨by decide, c2_no_monotonicity_check "0,1\n1,0\n2,2" (1/2) [(0, 1), (1, 0), (2, 2)]
    (by decide) (by decide) (by norm_num)⟩

/-! ### Claim C3 -/

/-- C3 counterexample: on a malformed line the function emits a UI error
message (a side effect) and returns with all three components `None`; the
returned error value is `None`, not an inspectable tagged error. -/
theorem c3_counterexample :
    get_interpolated_data "abc" 1 = .ret [tokMsg 1] none none none ∧
      [tokMsg 1] ≠ ([] : List String) := ⟨by decide, by decide⟩

/-- C3 (amended): on the failure paths that exist (malformed line, too few
points) the function returns normally, but it displays the user-facing
message itself through the UI (a side effect) and the returned error
component is always `None`; invalid step and non-monotonic y are not
checked at all. -/
theorem c3_failure_paths :
    (∀ (s : String) (step : ℚ) (m : String), parseData s = .error m →
        get_interpolated_data s step = .ret [m] none none none) ∧
      (∀ (s : String) (step : ℚ) (data : List (ℚ × ℚ)), parseData s = .ok data →
        data.length < 2 →
        get_interpolated_data s step = .ret [insufficientMsg] none none none) := by
  constructor
  · intro s step m hp
    unfold get_interpolated_data
    rw [hp]
  · intro s step data hp hlen
    unfold get_interpolated_data
    rw [hp]
    simp [hlen]

/-- C3 witness: both failure paths of the amended theorem at concrete
inputs. -/
theorem c3_failure_paths_witness :
    get_interpolated_data "xyz" (1/2) = .ret [tokMsg 1] none none none ∧
      get_interpolated_data "1,2" (1/2) = .ret [insufficientMsg] none none none :=
  ⟨c3_failure_paths.1 "xyz" (1/2) (tokMsg 1) (by decide),
    c3_failure_paths.2 "1,2" (1/2) [(1, 2)] (by decide) (by decide)⟩

/-! ### Claim C4 -/

/-- When every line before index `i` is blank or parses to a point and line
`i` fails, the parsing loop reports the failing line with 1-based index
`k + i + 1`, where `k` is the index offset of the first line. -/
lemma parseLoop_error : ∀ (ls : List (List Char)) (i k : ℕ) (acc : List (ℚ × ℚ)),
    i < ls.length →
    (∀ j < i, lineRes (ls.getD j []) = .blank ∨ ∃ p, lineRes (ls.getD j []) = .point p) →
    (lineRes (ls.getD i []) = .badTokens →
      parseLoop k ls acc = .error (tokMsg (k + i + 1))) ∧
    (lineRes (ls.getD i []) = .badFloat →
      parseLoop k ls acc = .error (floatMsg (k + i + 1)))
  | [], i, _, _, hlen, _ => absurd hlen (by simp)
  | l :: ls, 0, k, acc, _, _ => by
    constructor
    · intro hb
      simp only [List.getD_cons_zero] at hb
      simp [parseLoop, hb]
    · intro hb
      simp only [List.getD_cons_zero] at hb
      simp [parseLoop, hb]
  | l :: ls, i + 1, k, acc, hlen, hok => by
    have h0 := hok 0 (Nat.succ_pos i)
    simp only [List.getD_cons_zero] at h0
    have hlen' : i < ls.length := by simpa using hlen
    have hok' : ∀ j < i, lineRes (ls.getD j []) = .blank ∨
        ∃ p, lineRes (ls.getD j []) = .point p := by
      intro j hj
      have := hok (j + 1) (by omega)
      simpa using this
    have harith : k + 1 + i + 1 = k + (i + 1) + 1 := by omega
    rcases h0 with hblank | ⟨p, hpoint⟩
    · have ih := parseLoop_error ls i (k + 1) acc hlen' hok'
      constructor
      · intro hb
        simp only [List.getD_cons_succ] at hb
        rw [parseLoop, hblank, ← harith]
        exact ih.1 hb
      · intro hb
        simp only [List.getD_cons_succ] at hb
        rw [parseLoop, hblank, ← harith]
        exact ih.2 hb
    · have ih := parseLoop_error ls i (k + 1) (acc ++ [p]) hlen' hok'
      constructor
      · intro hb
        simp only [List.getD_cons_succ] at hb
        rw [parseLoop, hpoint, ← harith]
        exact ih.1 hb
      · intro hb
        simp only [List.getD_cons_succ] at hb
        rw [parseLoop, hpoint, ← harith]
        exact ih.2 hb

/-- C4 counterexample: the input `"1,2\nabc\n3,4"` fails citing line 2, but
the message does not contain the failing line's text `"abc"`: the code cites
only the line number, never the original trimmed text. -/
theorem c4_counterexample :
    get_interpolated_data "1,2\nabc\n3,4" (1/2) = .ret [tokMsg 2] none none none ∧
      tokMsg 2 = "⚠️ Input Error: Line 2 must contain exactly two numbers." ∧
      ¬ List.IsInfix "abc".data (tokMsg 2).data :=
  ⟨by decide, by decide, by decide⟩

/-- C4 (amended): for the first failing line of the whitespace-stripped
input, the call returns immediately with exactly one error message that
cites the 1-based index of that line — the token-count message when the
filtered residue does not split into exactly two tokens, the conversion
message when a token fails float conversion — and no curves; the message
does not include the line's text.  In particular `"1,2\nabc\n3,4"` fails
with the line 2 token-count message. -/
theorem c4_malformed_line (s : String) (step : ℚ) (i : ℕ)
    (hlen : i < (pySplitlines (pyStrip s.data)).length)
    (hok : ∀ j < i, lineRes ((pySplitlines (pyStrip s.data)).getD j []) = .blank ∨
      ∃ p, lineRes ((pySplitlines (pyStrip s.data)).getD j []) = .point p) :
    (lineRes ((pySplitlines (pyStrip s.data)).getD i []) = .badTokens →
      get_interpolated_data s step = .ret [tokMsg (i + 1)] none none none) ∧
    (lineRes ((pySplitlines (pyStrip s.data)).getD i []) = .badFloat →
      get_interpolated_data s step = .ret [floatMsg (i + 1)] none none none) := by
  have h := parseLoop_error (pySplitlines (pyStrip s.data)) i 0 [] hlen hok
  constructor
  · intro hb
    have hp : parseData s = .error (tokMsg (i + 1)) := by
      have := h.1 hb
      simpa [parseData] using this
    unfold get_interpolated_data
    rw [hp]
  · intro hb
    have hp : parseData s = .error (floatMsg (i + 1)) := by
      have := h.2 hb
      simpa [parseData] using this
    unfold get_interpolated_data
    rw [hp]

/-- C4 witness: the amended theorem applied to the spec's concrete input,
whose second line fails tokenisation. -/
theorem c4_malformed_line_witness :
    get_interpolated_data "1,2\nabc\n3,4" 1 = .ret [tokMsg 2] none none none :=
  (c4_malformed_line "1,2\nabc\n3,4" 1 1 (by decide)
    (fun j hj => by
      interval_cases j
      exact Or.inr ⟨(1, 2), by decide⟩)).1 (by decide)

/-! ### Claim C5 -/

/-- C5: the worked example: input `"0,0\n10,1\n20,2"` with step 1/2 succeeds
with resampled y grid `[0, 1/2, 1, 3/2, 2]` and interpolated x values
`[0, 5, 10, 15, 20]`. -/
theorem c5_example :
    get_interpolated_data "0,0\n10,1\n20,2" (1/2) =
      .ret [] (some ([0, 10, 20], [0, 1, 2]))
        (some ([0, 5, 10, 15, 20], [0, 1/2, 1, 3/2, 2])) none := by decide

/-! ### Claim C6 -/

lemma baseY_length (minY step : ℚ) (n : ℕ) : (baseY minY step n).length = n := by
  simp [baseY]

lemma baseY_getD {minY step : ℚ} {n i : ℕ} (h : i < n) :
    (baseY minY step n).getD i 0 = minY + step * i := by
  unfold baseY
  rw [List.getD_eq_getElem?_getD, List.getElem?_map, List.getElem?_range h]
  rfl

lemma baseY_ne_nil {minY step : ℚ} {n : ℕ} (hn : 0 < n) : baseY minY step n ≠ [] := by
  intro h
  have := baseY_length minY step n
  rw [h] at this
  simp at this
  omega

/-- The last element with default of a nonempty list is the element at index
`length - 1`. -/
lemma getLastD_eq_getD {l : List ℚ} (h : l ≠ []) (d : ℚ) :
    l.getLastD d = l.getD (l.length - 1) 0 := by
  have hlt : l.length - 1 < l.length := by
    cases l with
    | nil => exact absurd rfl h
    | cons a t => simp
  rw [List.getLastD_eq_getLast?, List.getLast?_eq_getLast l h,
    List.getLast_eq_getElem, List.getD_eq_getElem?_getD, List.getElem?_eq_getElem hlt]
  rfl

lemma baseY_getLastD {minY step : ℚ} {n : ℕ} (hn : 0 < n) :
    (baseY minY step n).getLastD 0 = minY + step * ((n : ℚ) - 1) := by
  rw [getLastD_eq_getD (baseY_ne_nil hn), baseY_length,
    baseY_getD (by omega : n - 1 < n)]
  have : ((n - 1 : ℕ) : ℚ) = (n : ℚ) - 1 := by
    have h1 : 1 ≤ n := hn
    push_cast [Nat.cast_sub h1]
    ring
  rw [this]

/-- The grid count, cast to the rationals, is the floor formula plus one. -/
lemma nStepsZ_toNat_cast {minY maxY step : ℚ} (hle : minY ≤ maxY) (hstep : 0 < step) :
    (((nStepsZ minY maxY step).toNat : ℚ)) =
      ((Int.floor ((maxY - minY) / step + 1 / 10 ^ 12) : ℤ) : ℚ) + 1 := by
  have hpos := nStepsZ_pos hle hstep
  have h1 : ((nStepsZ minY maxY step).toNat : ℤ) = nStepsZ minY maxY step :=
    Int.toNat_of_nonneg hpos.le
  calc (((nStepsZ minY maxY step).toNat : ℚ))
      = (((nStepsZ minY maxY step).toNat : ℤ) : ℚ) := by push_cast; ring
    _ = ((nStepsZ minY maxY step : ℤ) : ℚ) := by rw [h1]
    _ = ((Int.floor ((maxY - minY) / step + 1 / 10 ^ 12) : ℤ) : ℚ) + 1 := by
        unfold nStepsZ
        push_cast
        ring

/-- The last base grid point overshoots `max_y` by at most `step * 1e-12`. -/
lemma baseLast_le {minY maxY step : ℚ} (hle : minY ≤ maxY) (hstep : 0 < step) :
    (baseY minY step (nStepsZ minY maxY step).toNat).getLastD 0 ≤
      maxY + step * (1 / 10 ^ 12) := by
  have hn : 0 < (nStepsZ minY maxY step).toNat := by
    have := nStepsZ_pos hle hstep
    omega
  rw [baseY_getLastD hn, nStepsZ_toNat_cast hle hstep]
  have hfloor : ((Int.floor ((maxY - minY) / step + 1 / 10 ^ 12) : ℤ) : ℚ) ≤
      (maxY - minY) / step + 1 / 10 ^ 12 := Int.floor_le _
  have hmul : step * ((Int.floor ((maxY - minY) / step + 1 / 10 ^ 12) : ℤ) : ℚ) ≤
      step * ((maxY - minY) / step + 1 / 10 ^ 12) :=
    mul_le_mul_of_nonneg_left hfloor hstep.le
  have hcancel : step * ((maxY - minY) / step) = maxY - minY :=
    mul_div_cancel₀ _ hstep.ne'
  have hexp : step * ((maxY - minY) / step + 1 / 10 ^ 12) =
      (maxY - minY) + step * (1 / 10 ^ 12) := by
    rw [mul_add, hcancel]
  linarith [hmul, hexp.le]

lemma gridTol_nonneg (step : ℚ) : 0 ≤ gridTol step :=
  le_trans (by norm_num) (le_max_left (1 / 10 ^ 12) (step * (1 / 10 ^ 9)))

lemma step_eps_le_gridTol {step : ℚ} (hstep : 0 < step) :
    step * (1 / 10 ^ 12) ≤ gridTol step := by
  unfold gridTol
  rcases le_total step 1 with h | h
  · refine le_trans ?_ (le_max_left _ _)
    nlinarith
  · refine le_trans ?_ (le_max_right _ _)
    nlinarith

/-- The final grid always ends within the grid tolerance of `max_y`. -/
lemma newYValues_last_close {minY maxY step : ℚ} :
    |(newYValues minY maxY step).getLastD 0 - maxY| ≤ gridTol step := by
  unfold newYValues
  split_ifs with h
  · exact h
  · simp [gridTol_nonneg]

/-- When `max_y` gets appended, the last base grid point lies strictly below
`max_y`. -/
lemma append_case_baseLast_lt {minY maxY step : ℚ} (hle : minY ≤ maxY) (hstep : 0 < step)
    (h : ¬ |(baseY minY step (nStepsZ minY maxY step).toNat).getLastD 0 - maxY| ≤
      gridTol step) :
    (baseY minY step (nStepsZ minY maxY step).toNat).getLastD 0 < maxY := by
  have h1 := baseLast_le hle hstep
  have h2 := step_eps_le_gridTol hstep
  have h3 := gridTol_nonneg step
  by_contra hcon
  push_neg at hcon
  apply h
  rw [abs_le]
  constructor <;> linarith

/-- C6: for every successfully parsed input with at least two points and a
positive step, the base grid has `n = ⌊(max_y - min_y)/step + 1e-12⌋ + 1`
(the value `nStepsZ`) evenly spaced points starting at `min_y` with spacing
`step`; `max_y` is appended (once, at the end) exactly when the last base
grid point is not within `max(1e-12, step * 1e-9)` of `max_y`; and the final
grid always reaches `max_y` up to that tolerance (exactly, whenever it was
appended). -/
theorem c6_grid_construction (s : String) (step : ℚ) (data : List (ℚ × ℚ))
    (hp : parseData s = .ok data) (h2 : 2 ≤ data.length) (hstep : 0 < step) :
    get_interpolated_data s step =
        .ret [] (some (origCurve data)) (some (newCurve data step)) none ∧
      (∀ i < (nStepsZ (dataMinY data) (dataMaxY data) step).toNat,
        (gridY data step).getD i 0 = dataMinY data + step * i) ∧
      (gridY data step =
        if |(baseY (dataMinY data) step
              (nStepsZ (dataMinY data) (dataMaxY data) step).toNat).getLastD 0 -
            dataMaxY data| ≤ gridTol step
        then baseY (dataMinY data) step (nStepsZ (dataMinY data) (dataMaxY data) step).toNat
        else baseY (dataMinY data) step (nStepsZ (dataMinY data) (dataMaxY data) step).toNat
          ++ [dataMaxY data]) ∧
      |(gridY data step).getLastD 0 - dataMaxY data| ≤ gridTol step := by
  refine ⟨run_success hp h2 hstep, ?_, rfl, newYValues_last_close⟩
  intro i hi
  show (newYValues (dataMinY data) (dataMaxY data) step).getD i 0 = _
  unfold newYValues
  split_ifs with h
  · exact baseY_getD hi
  · rw [List.getD_append _ _ _ _ (by rw [baseY_length]; exact hi)]
    exact baseY_getD hi

/-- C6 witness: the grid construction at a concrete input. -/
theorem c6_grid_construction_witness :
    get_interpolated_data "0,0\n10,1" (1/2) =
        .ret [] (some (origCurve [(0, 0), (10, 1)]))
          (some (newCurve [(0, 0), (10, 1)] (1/2))) none ∧
      (∀ i < (nStepsZ (dataMinY [(0, 0), (10, 1)]) (dataMaxY [(0, 0), (10, 1)]) (1/2)).toNat,
        (gridY [(0, 0), (10, 1)] (1/2)).getD i 0 =
          dataMinY [(0, 0), (10, 1)] + 1/2 * i) ∧
      (gridY [(0, 0), (10, 1)] (1/2) =
        if |(baseY (dataMinY [(0, 0), (10, 1)]) (1/2)
              (nStepsZ (dataMinY [(0, 0), (10, 1)]) (dataMaxY [(0, 0), (10, 1)])
                (1/2)).toNat).getLastD 0 - dataMaxY [(0, 0), (10, 1)]| ≤ gridTol (1/2)
        then baseY (dataMinY [(0, 0), (10, 1)]) (1/2)
          (nStepsZ (dataMinY [(0, 0), (10, 1)]) (dataMaxY [(0, 0), (10, 1)]) (1/2)).toNat
        else baseY (dataMinY [(0, 0), (10, 1)]) (1/2)
          (nStepsZ (dataMinY [(0, 0), (10, 1)]) (dataMaxY [(0, 0), (10, 1)]) (1/2)).toNat
          ++ [dataMaxY [(0, 0), (10, 1)]]) ∧
      |(gridY [(0, 0), (10, 1)] (1/2)).getLastD 0 - dataMaxY [(0, 0), (10, 1)]| ≤
        gridTol (1/2) :=
  c6_grid_construction "0,0\n10,1" (1/2) [(0, 0), (10, 1)]
    (by decide) (by decide) (by norm_num)

/-! ### Claim C7 -/

lemma endpointTol_nonneg (step : ℚ) : 0 ≤ endpointTol step :=
  le_trans (by norm_num) (le_max_left (1 / 10 ^ 12) (step * (1 / 10 ^ 6)))

/-- After `append_point`, some y value within tolerance of the candidate is
always present. -/
lemma append_point_close_mem {xarr yarr : List ℚ} {xv yv tol : ℚ} (htol : 0 ≤ tol) :
    ∃ y ∈ (append_point xarr yarr xv yv tol).2, |y - yv| ≤ tol := by
  unfold append_point
  split_ifs with h
  · rcases List.any_eq_true.1 h with ⟨y, hy, hc⟩
    exact ⟨y, hy, of_decide_eq_true hc⟩
  · exact ⟨yv, by simp, by simp [htol]⟩

/-- `append_point` only ever appends, so y membership is preserved. -/
lemma append_point_mem_y {xarr yarr : List ℚ} {xv yv tol y : ℚ} (hy : y ∈ yarr) :
    y ∈ (append_point xarr yarr xv yv tol).2 := by
  unfold append_point
  split_ifs with h
  · exact hy
  · exact List.mem_append_left _ hy

/-- When no present y value is close, `append_point` appends the candidate
to both arrays. -/
lemma append_point_not_close {xarr yarr : List ℚ} {xv yv tol : ℚ}
    (h : ∀ y ∈ yarr, ¬ |y - yv| ≤ tol) :
    append_point xarr yarr xv yv tol = (xarr ++ [xv], yarr ++ [yv]) := by
  unfold append_point
  have hany : ¬ yarr.any (fun y => decide (|y - yv| ≤ tol)) = true := by
    rw [List.any_eq_true]
    rintro ⟨y, hy, hc⟩
    exact h y hy (of_decide_eq_true hc)
  simp [hany]

lemma append_point_length {xarr yarr : List ℚ} {xv yv tol : ℚ}
    (h : xarr.length = yarr.length) :
    (append_point xarr yarr xv yv tol).1.length =
      (append_point xarr yarr xv yv tol).2.length := by
  unfold append_point
  split_ifs
  · exact h
  · simp [h]

/-- Pair membership in the zip survives `append_point`. -/
lemma append_point_mem_zip {xarr yarr : List ℚ} {xv yv tol : ℚ} {p : ℚ × ℚ}
    (hlen : xarr.length = yarr.length) (hp : p ∈ xarr.zip yarr) :
    p ∈ (append_point xarr yarr xv yv tol).1.zip (append_point xarr yarr xv yv tol).2 := by
  unfold append_point
  split_ifs
  · exact hp
  · rw [List.zip_append hlen]
    exact List.mem_append_left _ hp

lemma gridX_length (data : List (ℚ × ℚ)) (step : ℚ) :
    (gridX data step).length = (gridY data step).length := by
  simp [gridX]

lemma withFirstPoint_length (data : List (ℚ × ℚ)) (step : ℚ) :
    (withFirstPoint data step).1.length = (withFirstPoint data step).2.length :=
  append_point_length (gridX_length data step)

lemma withLastPoint_length (data : List (ℚ × ℚ)) (step : ℚ) :
    (withLastPoint data step).1.length = (withLastPoint data step).2.length :=
  append_point_length (withFirstPoint_length data step)

/-- The y values of the final curve are a permutation of the y values before
the final sort. -/
lemma newCurve_y_perm (data : List (ℚ × ℚ)) (step : ℚ) :
    List.Perm (newCurve data step).2 (withLastPoint data step).2 := by
  unfold newCurve
  have h1 : List.Perm
      (List.insertionSort leY ((withLastPoint data step).1.zip (withLastPoint data step).2))
      ((withLastPoint data step).1.zip (withLastPoint data step).2) :=
    List.perm_insertionSort leY _
  have h2 := h1.map (fun p : ℚ × ℚ => p.2)
  have h3 : ((withLastPoint data step).1.zip (withLastPoint data step).2).map
      (fun p : ℚ × ℚ => p.2) = (withLastPoint data step).2 :=
    List.map_snd_zip _ _ (le_of_eq (withLastPoint_length data step).symm)
  rw [h3] at h2
  exact h2

/-- Pair membership before the final sort gives pair membership in the final
curve's zipped output. -/
lemma newCurve_mem_zip {data : List (ℚ × ℚ)} {step : ℚ} {p : ℚ × ℚ}
    (hp : p ∈ (withLastPoint data step).1.zip (withLastPoint data step).2) :
    p ∈ (newCurve data step).1.zip (newCurve data step).2 := by
  unfold newCurve
  rw [List.zip_map']
  simpa using ((List.perm_insertionSort leY _).mem_iff).2 hp

/-- The y sequence of the final curve is non-decreasing. -/
lemma newCurve_y_sorted (data : List (ℚ × ℚ)) (step : ℚ) :
    (newCurve data step).2.Sorted (· ≤ ·) := by
  unfold newCurve
  rw [List.Sorted, List.pairwise_map]
  exact (List.sorted_insertionSort leY _).imp (fun h => h)

/-- C7 counterexample: with step 1 and first input point `(5, 0.9999995)`,
the first point's y value is within `step * 1e-6` but not within
`step * 1e-9` of the grid value 1, so the code drops it: no output y value
is within the claimed tolerance `max(1e-12, step * 1e-9)` of it, and the
point is not inserted. -/
theorem c7_counterexample :
    get_interpolated_data "5,0.9999995\n0,0\n10,1" 1 =
      .ret [] (some ([0, 5, 10], [0, 9999995/10^7, 1])) (some ([0, 10], [0, 1])) none ∧
      (∀ y ∈ ([0, 1] : List ℚ), ¬ |y - 9999995/10^7| ≤ max (1/10^12) (1 * (1/10^9))) :=
  ⟨by decide, by decide⟩

/-- C7 (amended): the endpoint-retention tolerance is
`max(1e-12, step * 1e-6)` (not `step * 1e-9`): within that tolerance the
first and last original input points' y values are always present in the
output; a first point whose y matches no grid value within that tolerance
is inserted with its true original x, a last point is inserted when its y
additionally matches no y value present after the first insertion; and the
combined output is re-sorted ascending by y. -/
theorem c7_endpoint_retention (s : String) (step : ℚ) (data : List (ℚ × ℚ))
    (hp : parseData s = .ok data) (h2 : 2 ≤ data.length) (hstep : 0 < step) :
    get_interpolated_data s step =
        .ret [] (some (origCurve data)) (some (newCurve data step)) none ∧
      (∃ y ∈ (newCurve data step).2, |y - (data.headD (0, 0)).2| ≤ endpointTol step) ∧
      (∃ y ∈ (newCurve data step).2, |y - (data.getLastD (0, 0)).2| ≤ endpointTol step) ∧
      ((∀ y ∈ gridY data step, ¬ |y - (data.headD (0, 0)).2| ≤ endpointTol step) →
        ((data.headD (0, 0)).1, (data.headD (0, 0)).2) ∈
          (newCurve data step).1.zip (newCurve data step).2) ∧
      ((∀ y ∈ (withFirstPoint data step).2,
          ¬ |y - (data.getLastD (0, 0)).2| ≤ endpointTol step) →
        ((data.getLastD (0, 0)).1, (data.getLastD (0, 0)).2) ∈
          (newCurve data step).1.zip (newCurve data step).2) ∧
      (newCurve data step).2.Sorted (· ≤ ·) := by
  have htol := endpointTol_nonneg step
  refine ⟨run_success hp h2 hstep, ?_, ?_, ?_, ?_, newCurve_y_sorted data step⟩
  · rcases @append_point_close_mem (gridX data step) (gridY data step)
      (data.headD (0, 0)).1 (data.headD (0, 0)).2 (endpointTol step) htol with ⟨y, hy, hc⟩
    have hy2 : y ∈ (withLastPoint data step).2 := append_point_mem_y hy
    exact ⟨y, ((newCurve_y_perm data step).mem_iff).2 hy2, hc⟩
  · rcases @append_point_close_mem (withFirstPoint data step).1
      (withFirstPoint data step).2 (data.getLastD (0, 0)).1 (data.getLastD (0, 0)).2
      (endpointTol step) htol with ⟨y, hy, hc⟩
    exact ⟨y, ((newCurve_y_perm data step).mem_iff).2 hy, hc⟩
  · intro hfar
    have heq : withFirstPoint data step =
        (gridX data step ++ [(data.headD (0, 0)).1],
          gridY data step ++ [(data.headD (0, 0)).2]) :=
      append_point_not_close hfar
    have hmem1 : ((data.headD (0, 0)).1, (data.headD (0, 0)).2) ∈
        (withFirstPoint data step).1.zip (withFirstPoint data step).2 := by
      rw [heq]
      rw [List.zip_append (gridX_length data step)]
      simp
    have hmem2 : ((data.headD (0, 0)).1, (data.headD (0, 0)).2) ∈
        (withLastPoint data step).1.zip (withLastPoint data step).2 :=
      append_point_mem_zip (withFirstPoint_length data step) hmem1
    exact newCurve_mem_zip hmem2
  · intro hfar
    have heq : withLastPoint data step =
        ((withFirstPoint data step).1 ++ [(data.getLastD (0, 0)).1],
          (withFirstPoint data step).2 ++ [(data.getLastD (0, 0)).2]) :=
      append_point_not_close hfar
    have hmem1 : ((data.getLastD (0, 0)).1, (data.getLastD (0, 0)).2) ∈
        (withLastPoint data step).1.zip (withLastPoint data step).2 := by
      rw [heq]
      rw [List.zip_append (withFirstPoint_length data step)]
      simp
    exact newCurve_mem_zip hmem1

/-- C7 witness: the amended theorem at a concrete input whose first point is
off the grid and so gets inserted with its true x value. -/
theorem c7_endpoint_retention_witness :
    get_interpolated_data "5,0.3\n0,0\n10,1" 1 =
        .ret [] (some (origCurve [(5, 3/10), (0, 0), (10, 1)]))
          (some (newCurve [(5, 3/10), (0, 0), (10, 1)] 1)) none ∧
      (∃ y ∈ (newCurve [(5, 3/10), (0, 0), (10, 1)] 1).2,
        |y - (([(5, 3/10), (0, 0), (10, 1)] : List (ℚ × ℚ)).headD (0, 0)).2| ≤
          endpointTol 1) ∧
      (∃ y ∈ (newCurve [(5, 3/10), (0, 0), (10, 1)] 1).2,
        |y - (([(5, 3/10), (0, 0), (10, 1)] : List (ℚ × ℚ)).getLastD (0, 0)).2| ≤
          endpointTol 1) ∧
      ((∀ y ∈ gridY [(5, 3/10), (0, 0), (10, 1)] 1,
          ¬ |y - (([(5, 3/10), (0, 0), (10, 1)] : List (ℚ × ℚ)).headD (0, 0)).2| ≤
            endpointTol 1) →
        ((([(5, 3/10), (0, 0), (10, 1)] : List (ℚ × ℚ)).headD (0, 0)).1,
            (([(5, 3/10), (0, 0), (10, 1)] : List (ℚ × ℚ)).headD (0, 0)).2) ∈
          (newCurve [(5, 3/10), (0, 0), (10, 1)] 1).1.zip
            (newCurve [(5, 3/10), (0, 0), (10, 1)] 1).2) ∧
      ((∀ y ∈ (withFirstPoint [(5, 3/10), (0, 0), (10, 1)] 1).2,
          ¬ |y - (([(5, 3/10), (0, 0), (10, 1)] : List (ℚ × ℚ)).getLastD (0, 0)).2| ≤
            endpointTol 1) →
        ((([(5, 3/10), (0, 0), (10, 1)] : List (ℚ × ℚ)).getLastD (0, 0)).1,
            (([(5, 3/10), (0, 0), (10, 1)] : List (ℚ × ℚ)).getLastD (0, 0)).2) ∈
          (newCurve [(5, 3/10), (0, 0), (10, 1)] 1).1.zip
            (newCurve [(5, 3/10), (0, 0), (10, 1)] 1).2) ∧
      (newCurve [(5, 3/10), (0, 0), (10, 1)] 1).2.Sorted (· ≤ ·) :=
  c7_endpoint_retention "5,0.3\n0,0\n10,1" 1 [(5, 3/10), (0, 0), (10, 1)]
    (by decide) (by decide) (by norm_num)

/-! ### Claim C8 -/

lemma getD_eq_get {l : List ℚ} {i : ℕ} (h : i < l.length) (d : ℚ) :
    l.getD i d = l.get ⟨i, h⟩ := by
  rw [List.getD_eq_getElem?_getD, List.getElem?_eq_getElem h]
  rfl

lemma headD_eq_get {l : List ℚ} (h : 0 < l.length) : l.headD 0 = l.get ⟨0, h⟩ := by
  cases l with
  | nil => simp at h
  | cons a t => rfl

lemma getLastD_eq_get {l : List ℚ} (h : l ≠ []) :
    l.getLastD 0 = l.get ⟨l.length - 1, by
      cases l with
      | nil => exact absurd rfl h
      | cons a t => simp⟩ := by
  rw [getLastD_eq_getD h]
  exact getD_eq_get _ _

/-- On a strictly increasing list, the prefix of elements at most the `k`-th
element is exactly the first `k + 1` elements. -/
lemma takeWhile_le_length : ∀ {l : List ℚ}, l.Pairwise (· < ·) → ∀ {k : ℕ} (hk : k < l.length),
    (l.takeWhile (fun v => decide (v ≤ l.get ⟨k, hk⟩))).length = k + 1
  | [], _, k, hk => absurd hk (by simp)
  | a :: t, hp, 0, hk => by
    show (List.takeWhile (fun v => decide (v ≤ a)) (a :: t)).length = 1
    rw [List.takeWhile_cons]
    have ha : decide (a ≤ a) = true := by simp
    rw [ha]
    simp only [if_true, List.length_cons]
    cases t with
    | nil => simp
    | cons b t' =>
      have hab : a < b := List.rel_of_pairwise_cons hp (by simp)
      rw [List.takeWhile_cons]
      have hb : decide (b ≤ a) = false := by simp [not_le.2 hab]
      rw [hb]
      simp
  | a :: t, hp, k + 1, hk => by
    have hk' : k < t.length := by simpa using hk
    show (List.takeWhile (fun v => decide (v ≤ t.get ⟨k, hk'⟩)) (a :: t)).length = k + 2
    rw [List.takeWhile_cons]
    have hat : a < t.get ⟨k, hk'⟩ := List.rel_of_pairwise_cons hp (List.get_mem t k hk')
    have ha : decide (a ≤ t.get ⟨k, hk'⟩) = true := decide_eq_true hat.le
    rw [ha]
    simp only [if_true, List.length_cons]
    rw [takeWhile_le_length (List.Pairwise.of_cons hp) hk']

/-- Round trip at a knot of a strictly increasing knot sequence: the
interpolation of `np.interp` at the `k`-th y value returns the `k`-th x
value exactly. -/
lemma npInterp_knot {prs : List (ℚ × ℚ)}
    (hlt : (prs.map (fun p => p.2)).Pairwise (· < ·)) {k : ℕ} (hk : k < prs.length) :
    npInterp (prs.get ⟨k, hk⟩).2 (prs.map (fun p => p.2)) (prs.map (fun p => p.1)) =
      (prs.get ⟨k, hk⟩).1 := by
  have hlen : 0 < prs.length := by omega
  have hpred : prs.length - 1 < prs.length := by omega
  have hymap : ∀ (i : ℕ) (hi : i < prs.length),
      (prs.map (fun p => p.2)).get ⟨i, by simpa using hi⟩ = (prs.get ⟨i, hi⟩).2 := by
    intro i hi
    simp [List.get_eq_getElem, List.getElem_map]
  have hxmap : ∀ (i : ℕ) (hi : i < prs.length),
      (prs.map (fun p => p.1)).get ⟨i, by simpa using hi⟩ = (prs.get ⟨i, hi⟩).1 := by
    intro i hi
    simp [List.get_eq_getElem, List.getElem_map]
  have hyne : prs.map (fun p => p.2) ≠ [] := by
    intro h
    have h2 : prs.length = 0 := by simpa using congrArg List.length h
    omega
  have hxne : prs.map (fun p => p.1) ≠ [] := by
    intro h
    have h2 : prs.length = 0 := by simpa using congrArg List.length h
    omega
  have hgetlast : (prs.map (fun p => p.2)).getLastD 0 =
      (prs.get ⟨prs.length - 1, hpred⟩).2 := by
    rw [getLastD_eq_get hyne]
    simp [List.get_eq_getElem, List.getElem_map]
  have hgetxlast : (prs.map (fun p => p.1)).getLastD 0 =
      (prs.get ⟨prs.length - 1, hpred⟩).1 := by
    rw [getLastD_eq_get hxne]
    simp [List.get_eq_getElem, List.getElem_map]
  have hgethead : (prs.map (fun p => p.2)).headD 0 = (prs.get ⟨0, hlen⟩).2 := by
    rw [headD_eq_get (by simpa using hlen)]
    simp [List.get_eq_getElem, List.getElem_map]
  have hpair : ∀ (i j : ℕ) (hi : i < prs.length) (hj : j < prs.length), i < j →
      (prs.get ⟨i, hi⟩).2 < (prs.get ⟨j, hj⟩).2 := by
    intro i j hi hj hij
    have h := List.pairwise_iff_get.1 hlt ⟨i, by simpa using hi⟩ ⟨j, by simpa using hj⟩ hij
    rwa [hymap i hi, hymap j hj] at h
  have hhead_le : (prs.get ⟨0, hlen⟩).2 ≤ (prs.get ⟨k, hk⟩).2 := by
    rcases Nat.eq_zero_or_pos k with rfl | hkpos
    · exact le_rfl
    · exact (hpair 0 k hlen hk hkpos).le
  simp only [npInterp]
  rcases eq_or_lt_of_le (by omega : k ≤ prs.length - 1) with heq | hklt
  · subst heq
    rw [hgetlast, hgethead]
    rw [if_neg (lt_irrefl _), if_neg (not_lt.2 hhead_le), if_pos rfl, hgetxlast]
  · have hxlt : (prs.get ⟨k, hk⟩).2 < (prs.get ⟨prs.length - 1, hpred⟩).2 :=
      hpair _ _ hk hpred hklt
    rw [hgetlast, hgethead]
    rw [if_neg (not_lt.2 hxlt.le), if_neg (not_lt.2 hhead_le), if_neg (ne_of_lt hxlt)]
    have hJ := takeWhile_le_length hlt
      (show k < (prs.map (fun p => p.2)).length by simpa using hk)
    rw [hymap k hk] at hJ
    rw [hJ]
    simp only [Nat.add_sub_cancel]
    have hk1 : k + 1 < prs.length := by omega
    have e1 : (prs.map (fun p => p.2)).getD k 0 = (prs.get ⟨k, hk⟩).2 := by
      rw [getD_eq_get (show k < (prs.map (fun p => p.2)).length by simpa using hk)]
      exact hymap k hk
    have e2 : (prs.map (fun p => p.2)).getD (k + 1) 0 = (prs.get ⟨k + 1, hk1⟩).2 := by
      rw [getD_eq_get (show k + 1 < (prs.map (fun p => p.2)).length by simpa using hk1)]
      exact hymap (k + 1) hk1
    have e3 : (prs.map (fun p => p.1)).getD k 0 = (prs.get ⟨k, hk⟩).1 := by
      rw [getD_eq_get (show k < (prs.map (fun p => p.1)).length by simpa using hk)]
      exact hxmap k hk
    have e4 : (prs.map (fun p => p.1)).getD (k + 1) 0 = (prs.get ⟨k + 1, hk1⟩).1 := by
      rw [getD_eq_get (show k + 1 < (prs.map (fun p => p.1)).length by simpa using hk1)]
      exact hxmap (k + 1) hk1
    rw [e1, e2, e3, e4]
    ring

/-- C8 counterexample: with duplicate y knots the round trip fails: for the
input `"0,0\n5,1\n7,1\n10,2"` the pair `(5, 1)` is an original point, yet
interpolating the sorted curve at y = 1 returns 7, which is 2 away from the
original x = 5 — far beyond any floating-point tolerance. -/
theorem c8_counterexample :
    get_interpolated_data "0,0\n5,1\n7,1\n10,2" 1 =
        .ret [] (some ([0, 5, 7, 10], [0, 1, 1, 2])) (some ([0, 7, 10], [0, 1, 2])) none ∧
      ((5 : ℚ), (1 : ℚ)) ∈ ([(0, 0), (5, 1), (7, 1), (10, 2)] : List (ℚ × ℚ)) ∧
      sortedYs [(0, 0), (5, 1), (7, 1), (10, 2)] = [0, 1, 1, 2] ∧
      sortedXs [(0, 0), (5, 1), (7, 1), (10, 2)] = [0, 5, 7, 10] ∧
      npInterp 1 [0, 1, 1, 2] [0, 5, 7, 10] = 7 ∧
      (1 : ℚ) ≤ |(7 : ℚ) - 5| :=
  ⟨by decide, by decide, by decide, by decide, by decide, by decide⟩

/-- C8 (amended): the round-trip identity at knots holds whenever the
y values of the input are pairwise distinct (so the sorted y sequence is
strictly increasing): for every successful resample and every original
(x, y) pair, interpolating the sorted curve at exactly that y returns that
x exactly.  With duplicate y values it fails (see the counterexample). -/
theorem c8_round_trip_distinct (s : String) (step : ℚ) (data : List (ℚ × ℚ))
    (hp : parseData s = .ok data) (h2 : 2 ≤ data.length) (hstep : 0 < step)
    (hdist : (sortedYs data).Pairwise (· < ·)) :
    get_interpolated_data s step =
        .ret [] (some (origCurve data)) (some (newCurve data step)) none ∧
      ∀ p ∈ data, npInterp p.2 (sortedYs data) (sortedXs data) = p.1 := by
  refine ⟨run_success hp h2 hstep, ?_⟩
  intro p hpmem
  have hmem : p ∈ sortedPoints data := ((sortedPoints_perm data).mem_iff).2 hpmem
  rcases List.mem_iff_get.1 hmem with ⟨⟨k, hk⟩, rfl⟩
  exact npInterp_knot hdist hk

/-- C8 witness: the amended theorem at the spec's worked example, whose y
values are pairwise distinct. -/
theorem c8_round_trip_distinct_witness :
    get_interpolated_data "0,0\n10,1\n20,2" (1/2) =
        .ret [] (some (origCurve [(0, 0), (10, 1), (20, 2)]))
          (some (newCurve [(0, 0), (10, 1), (20, 2)] (1/2))) none ∧
      ∀ p ∈ ([(0, 0), (10, 1), (20, 2)] : List (ℚ × ℚ)),
        npInterp p.2 (sortedYs [(0, 0), (10, 1), (20, 2)])
          (sortedXs [(0, 0), (10, 1), (20, 2)]) = p.1 :=
  c8_round_trip_distinct "0,0\n10,1\n20,2" (1/2) [(0, 0), (10, 1), (20, 2)]
    (by decide) (by decide) (by norm_num) (by decide)

/-! ### Claim C9 -/

lemma headD_mem {l : List ℚ} (h : l ≠ []) : l.headD 0 ∈ l := by
  cases l with
  | nil => exact absurd rfl h
  | cons a t => simp

lemma headD_pair_mem {l : List (ℚ × ℚ)} (h : l ≠ []) : l.headD (0, 0) ∈ l := by
  cases l with
  | nil => exact absurd rfl h
  | cons a t => simp

lemma getLastD_pair_mem : ∀ {l : List (ℚ × ℚ)}, l ≠ [] → l.getLastD (0, 0) ∈ l
  | [], h => absurd rfl h
  | [a], _ => by simp
  | a :: b :: t, _ => by
    have ih : (b :: t).getLastD (0, 0) ∈ b :: t := getLastD_pair_mem (by simp)
    simp only [List.getLastD_cons] at ih ⊢
    exact List.mem_cons_of_mem a ih

/-- A sorted list whose member `m` is a lower bound has head `m`. -/
lemma sorted_headD_eq {l : List ℚ} (hs : l.Sorted (· ≤ ·)) {m : ℚ} (hm : m ∈ l)
    (hlb : ∀ y ∈ l, m ≤ y) : l.headD 0 = m :=
  le_antisymm (sorted_headD_le hs hm) (hlb _ (headD_mem (List.ne_nil_of_mem hm)))

/-- A sorted list whose member `m` is an upper bound has last element `m`. -/
lemma sorted_getLastD_eq {l : List ℚ} (hs : l.Sorted (· ≤ ·)) {m : ℚ} (hm : m ∈ l)
    (hub : ∀ y ∈ l, y ≤ m) : l.getLastD 0 = m :=
  le_antisymm (hub _ (getLastD_mem (List.ne_nil_of_mem hm)))
    (sorted_le_getLastD hs hm)

lemma minY_mem_baseY {minY step : ℚ} {n : ℕ} (hn : 0 < n) : minY ∈ baseY minY step n := by
  unfold baseY
  exact List.mem_map.2 ⟨0, List.mem_range.2 hn, by simp⟩

lemma baseY_lower {minY step : ℚ} {n : ℕ} (hstep : 0 ≤ step) :
    ∀ y ∈ baseY minY step n, minY ≤ y := by
  intro y hy
  unfold baseY at hy
  rcases List.mem_map.1 hy with ⟨i, _, rfl⟩
  have h1 : (0 : ℚ) ≤ step * i := mul_nonneg hstep (by positivity)
  linarith

lemma baseY_upper {minY step : ℚ} {n : ℕ} (hstep : 0 ≤ step) (hn : 0 < n) :
    ∀ y ∈ baseY minY step n, y ≤ (baseY minY step n).getLastD 0 := by
  intro y hy
  rw [baseY_getLastD hn]
  unfold baseY at hy
  rcases List.mem_map.1 hy with ⟨i, hi, rfl⟩
  have hi' : i < n := List.mem_range.1 hi
  have hcast : (i : ℚ) + 1 ≤ (n : ℚ) := by exact_mod_cast hi'
  have h1 : step * (i : ℚ) ≤ step * ((n : ℚ) - 1) :=
    mul_le_mul_of_nonneg_left (by linarith) hstep
  linarith

/-- Elements of the grid are at least `min_y`. -/
lemma newYValues_lower {minY maxY step : ℚ} (hle : minY ≤ maxY) (hstep : 0 ≤ step) :
    ∀ y ∈ newYValues minY maxY step, minY ≤ y := by
  intro y hy
  unfold newYValues at hy
  split_ifs at hy with h
  · exact baseY_lower hstep y hy
  · rcases List.mem_append.1 hy with h1 | h1
    · exact baseY_lower hstep y h1
    · simp at h1
      exact h1 ▸ hle

/-- Refined membership in `append_point`'s y output: either it was present
before, or it is the candidate, which then matched nothing present. -/
lemma append_point_mem_y_cases {xarr yarr : List ℚ} {xv yv tol y : ℚ}
    (hy : y ∈ (append_point xarr yarr xv yv tol).2) :
    y ∈ yarr ∨ (y = yv ∧ ∀ z ∈ yarr, ¬ |z - yv| ≤ tol) := by
  unfold append_point at hy
  split_ifs at hy with h
  · exact Or.inl hy
  · rcases List.mem_append.1 hy with h1 | h1
    · exact Or.inl h1
    · refine Or.inr ⟨by simpa using h1, ?_⟩
      intro z hz hc
      rw [List.any_eq_true] at h
      exact h ⟨z, hz, decide_eq_true hc⟩

/-- Membership in the combined y array before the final sort: a grid value,
or one of the two retained endpoints, then far from every grid value. -/
lemma mem_withLastPoint_y_cases {data : List (ℚ × ℚ)} {step y : ℚ}
    (hy : y ∈ (withLastPoint data step).2) :
    y ∈ gridY data step ∨
      ((y = (data.headD (0, 0)).2 ∨ y = (data.getLastD (0, 0)).2) ∧
        ∀ z ∈ gridY data step, ¬ |z - y| ≤ endpointTol step) := by
  unfold withLastPoint at hy
  rcases append_point_mem_y_cases hy with h1 | ⟨rfl, hfar⟩
  · unfold withFirstPoint at h1
    rcases append_point_mem_y_cases h1 with h2 | ⟨rfl, hfar⟩
    · exact Or.inl h2
    · exact Or.inr ⟨Or.inl rfl, hfar⟩
  · refine Or.inr ⟨Or.inr rfl, ?_⟩
    intro z hz
    exact hfar z (append_point_mem_y hz)

lemma gridTol_le_endpointTol {step : ℚ} (hstep : 0 ≤ step) :
    gridTol step ≤ endpointTol step := by
  unfold gridTol endpointTol
  exact max_le_max le_rfl (mul_le_mul_of_nonneg_left (by norm_num) hstep)

lemma data_ne_nil {data : List (ℚ × ℚ)} (h2 : 2 ≤ data.length) : data ≠ [] := by
  intro h
  rw [h] at h2
  simp at h2

/-- C9 counterexample: for input `"0,0\n10,2.0000000001"` with step 1/2 the
grid's last base point 2 is within the grid tolerance of `max_y`, so
`max_y = 2.0000000001` is never appended; the output's last y value is 2,
not the original maximum. -/
theorem c9_counterexample :
    get_interpolated_data "0,0\n10,2.0000000001" (1/2) =
        .ret [] (some (origCurve [(0, 0), (10, 20000000001/10^10)]))
          (some (newCurve [(0, 0), (10, 20000000001/10^10)] (1/2))) none ∧
      (newCurve [(0, 0), (10, 20000000001/10^10)] (1/2)).2.getLastD 0 = 2 ∧
      dataMaxY [(0, 0), (10, 20000000001/10^10)] = 20000000001/10^10 ∧
      (2 : ℚ) ≠ 20000000001/10^10 :=
  ⟨by decide, by decide, by decide, by decide⟩

/-- C9 (amended): for every successful resample the output y sequence is
non-decreasing and its first value equals the original minimum y exactly;
its last value is within the grid tolerance `max(1e-12, step * 1e-9)` of the
original maximum y (equal to it whenever `max_y` was appended), but not
always equal to it. -/
theorem c9_output_monotone_bounds (s : String) (step : ℚ) (data : List (ℚ × ℚ))
    (hp : parseData s = .ok data) (h2 : 2 ≤ data.length) (hstep : 0 < step) :
    get_interpolated_data s step =
        .ret [] (some (origCurve data)) (some (newCurve data step)) none ∧
      (newCurve data step).2.Sorted (· ≤ ·) ∧
      (newCurve data step).2.headD 0 = dataMinY data ∧
      |(newCurve data step).2.getLastD 0 - dataMaxY data| ≤ gridTol step := by
  have hle : dataMinY data ≤ dataMaxY data := dataMinY_le_dataMaxY h2
  have hsorted := newCurve_y_sorted data step
  have hperm := newCurve_y_perm data step
  have hn : 0 < (nStepsZ (dataMinY data) (dataMaxY data) step).toNat := by
    have := nStepsZ_pos hle hstep
    omega
  have hbne : baseY (dataMinY data) step (nStepsZ (dataMinY data) (dataMaxY data) step).toNat
      ≠ [] := baseY_ne_nil hn
  have hdne := data_ne_nil h2
  -- the first retained point and the last retained point are data members
  have hfr : data.headD (0, 0) ∈ data := headD_pair_mem hdne
  have hlr : data.getLastD (0, 0) ∈ data := getLastD_pair_mem hdne
  -- min_y is in the grid, hence in the output
  have hming : dataMinY data ∈ gridY data step := by
    show dataMinY data ∈ newYValues (dataMinY data) (dataMaxY data) step
    unfold newYValues
    split_ifs with h
    · exact minY_mem_baseY hn
    · exact List.mem_append_left _ (minY_mem_baseY hn)
  have hminy2 : dataMinY data ∈ (withLastPoint data step).2 := by
    show dataMinY data ∈ (append_point (withFirstPoint data step).1
      (withFirstPoint data step).2 _ _ _).2
    exact append_point_mem_y (append_point_mem_y hming)
  -- every value in the combined array is at least min_y
  have hlower : ∀ y ∈ (withLastPoint data step).2, dataMinY data ≤ y := by
    intro y hy
    rcases mem_withLastPoint_y_cases hy with hg | ⟨hcase, _⟩
    · exact newYValues_lower hle hstep.le y hg
    · rcases hcase with rfl | rfl
      · exact dataMinY_le hfr
      · exact dataMinY_le hlr
  refine ⟨run_success hp h2 hstep, hsorted, ?_, ?_⟩
  · exact sorted_headD_eq hsorted (hperm.mem_iff.2 hminy2)
      (fun y hy => hlower y (hperm.mem_iff.1 hy))
  · -- the last output value: split on whether max_y was appended
    by_cases hclose : |(baseY (dataMinY data) step
        (nStepsZ (dataMinY data) (dataMaxY data) step).toNat).getLastD 0 -
        dataMaxY data| ≤ gridTol step
    · -- base grid only: the last output value is the last base point
      have hgeq : gridY data step = baseY (dataMinY data) step
          (nStepsZ (dataMinY data) (dataMaxY data) step).toNat := by
        show newYValues (dataMinY data) (dataMaxY data) step = _
        unfold newYValues
        rw [if_pos hclose]
      set L := (baseY (dataMinY data) step
        (nStepsZ (dataMinY data) (dataMaxY data) step).toNat).getLastD 0 with hL
      have hLmem : L ∈ gridY data step := by
        rw [hgeq]
        exact getLastD_mem hbne
      have hLy2 : L ∈ (withLastPoint data step).2 := by
        show L ∈ (append_point (withFirstPoint data step).1
          (withFirstPoint data step).2 _ _ _).2
        exact append_point_mem_y (append_point_mem_y hLmem)
      have hupper : ∀ y ∈ (withLastPoint data step).2, y ≤ L := by
        intro y hy
        rcases mem_withLastPoint_y_cases hy with hg | ⟨hcase, hfar⟩
        · rw [hgeq] at hg
          exact baseY_upper hstep.le hn y hg
        · have hymax : y ≤ dataMaxY data := by
            rcases hcase with rfl | rfl
            · exact le_dataMaxY hfr
            · exact le_dataMaxY hlr
          by_contra hcon
          push_neg at hcon
          apply hfar L hLmem
          have h1 : dataMaxY data - L ≤ |L - dataMaxY data| := by
            rw [abs_sub_comm]
            exact le_abs_self _
          have h2 : |L - y| = y - L := by
            rw [abs_sub_comm]
            exact abs_of_nonneg (by linarith)
          have h3 := gridTol_le_endpointTol hstep.le
          rw [h2]
          linarith
      have hlast : (newCurve data step).2.getLastD 0 = L :=
        sorted_getLastD_eq hsorted (hperm.mem_iff.2 hLy2)
          (fun y hy => hupper y (hperm.mem_iff.1 hy))
      rw [hlast]
      exact hclose
    · -- max_y was appended: the last output value is exactly max_y
      have hgeq : gridY data step = baseY (dataMinY data) step
          (nStepsZ (dataMinY data) (dataMaxY data) step).toNat ++ [dataMaxY data] := by
        show newYValues (dataMinY data) (dataMaxY data) step = _
        unfold newYValues
        rw [if_neg hclose]
      have hLlt : (baseY (dataMinY data) step
          (nStepsZ (dataMinY data) (dataMaxY data) step).toNat).getLastD 0 <
          dataMaxY data := append_case_baseLast_lt hle hstep hclose
      have hmaxg : dataMaxY data ∈ gridY data step := by
        rw [hgeq]
        exact List.mem_append_right _ (by simp)
      have hmaxy2 : dataMaxY data ∈ (withLastPoint data step).2 := by
        show dataMaxY data ∈ (append_point (withFirstPoint data step).1
          (withFirstPoint data step).2 _ _ _).2
        exact append_point_mem_y (append_point_mem_y hmaxg)
      have hupper : ∀ y ∈ (withLastPoint data step).2, y ≤ dataMaxY data := by
        intro y hy
        rcases mem_withLastPoint_y_cases hy with hg | ⟨hcase, _⟩
        · rw [hgeq] at hg
          rcases List.mem_append.1 hg with h1 | h1
          · exact le_trans (baseY_upper hstep.le hn y h1) hLlt.le
          · simp at h1
            exact h1.le
        · rcases hcase with rfl | rfl
          · exact le_dataMaxY hfr
          · exact le_dataMaxY hlr
      have hlast : (newCurve data step).2.getLastD 0 = dataMaxY data :=
        sorted_getLastD_eq hsorted (hperm.mem_iff.2 hmaxy2)
          (fun y hy => hupper y (hperm.mem_iff.1 hy))
      rw [hlast]
      simp [gridTol_nonneg]

/-- C9 witness: the amended theorem at a concrete input. -/
theorem c9_output_monotone_bounds_witness :
    get_interpolated_data "0,0\n10,1" 1 =
        .ret [] (some (origCurve [(0, 0), (10, 1)]))
          (some (newCurve [(0, 0), (10, 1)] 1)) none ∧
      (newCurve [(0, 0), (10, 1)] 1).2.Sorted (· ≤ ·) ∧
      (newCurve [(0, 0), (10, 1)] 1).2.headD 0 = dataMinY [(0, 0), (10, 1)] ∧
      |(newCurve [(0, 0), (10, 1)] 1).2.getLastD 0 - dataMaxY [(0, 0), (10, 1)]| ≤
        gridTol 1 :=
  c9_output_monotone_bounds "0,0\n10,1" 1 [(0, 0), (10, 1)]
    (by decide) (by decide) (by norm_num)

/-! ### Claim C10 -/

/-- C10: the character filter silently deletes the minus sign and the
exponent marker, so `"-1, 2"` is accepted as the point (1, 2) and
`"1e5, 2"` as (15, 2) instead of being rejected as malformed. -/
theorem c10_filter_mangles :
    cleanChars "-1, 2".data = "1, 2".data ∧
      lineRes "-1, 2".data = .point (1, 2) ∧
      cleanChars "1e5, 2".data = "15, 2".data ∧
      lineRes "1e5, 2".data = .point (15, 2) ∧
      parseData "-1, 2\n1e5, 2" = .ok [(1, 2), (15, 2)] ∧
      ((1 : ℚ), (2 : ℚ)) ≠ (-1, 2) := by
  refine ⟨by decide, by decide, by decide, by decide, by decide, by decide⟩

end CurveApp
